import Mathlib

/-!
Verification of the CELRIX cache server core against its specification.

The Rust source is shallowly embedded: pure functions become Lean functions,
mutation becomes explicit state passing, `Instant` timestamps become a `Nat`
parameter `now` threaded through the operations, machine integers become `Nat`
or `Int` with explicit `% 2 ^ w` where the source truncates (`as u32`), and
fallible code returns `Option` / `Except` / a dedicated result type.

On the wire layer (`protocol/command.rs`, `protocol/response.rs`,
`protocol/frame.rs`) an `f32` vector element is represented by its 32-bit
big-endian bit pattern, a `Nat < 2 ^ 32`: `put_f32` / `get_f32` move the bit
pattern unchanged, so the wire model is bit-exact.  On the vector-arithmetic
layer (`vector/similarity.rs`, `vector/embedding_store.rs`) `f32` values are
idealized as exact rationals `ℚ`; the theorems proved there depend only on the
order structure of the similarity values, not on rounding.
-/

namespace Celrix

/-- Byte strings (`bytes::Bytes`) are lists of byte values. -/
abbrev Bytes := List Nat

/-- Big-endian interpretation of a byte list as a natural number. -/
def beNat (bs : Bytes) : Nat := bs.foldl (fun acc b => acc * 256 + b) 0

/-- The four big-endian bytes written by `put_u32(n as u32)`. -/
def u32Bytes (n : Nat) : Bytes :=
  [n / 2 ^ 24 % 256, n / 2 ^ 16 % 256, n / 2 ^ 8 % 256, n % 256]

/-- The eight big-endian bytes written by `put_u64(n as u64)`. -/
def u64Bytes (n : Nat) : Bytes :=
  [n / 2 ^ 56 % 256, n / 2 ^ 48 % 256, n / 2 ^ 40 % 256, n / 2 ^ 32 % 256,
   n / 2 ^ 24 % 256, n / 2 ^ 16 % 256, n / 2 ^ 8 % 256, n % 256]

/-- The eight bytes written by `put_i64` (two's complement, big-endian). -/
def i64Bytes (n : Int) : Bytes := u64Bytes (n % 2 ^ 64).toNat

/-- Reading of the 8-byte big-endian payload by `i64::from_be_bytes`. -/
def i64OfNat (m : Nat) : Int := if m < 2 ^ 63 then (m : Int) else (m : Int) - 2 ^ 64

/-- Wire opcodes (`protocol/frame.rs`, `enum OpCode`). -/
inductive OpCode where
  | Ping | Pong | Get | Set | Del | Exists
  | MGet | MSet | MDel
  | Incr | Decr | IncrBy | DecrBy
  | Scan | Keys
  | Ok | Error | Value | Nil | Integer | Array
  | VAdd | VSearch
deriving DecidableEq, Repr

/-- Frame header (`protocol/frame.rs`, `struct FrameHeader`); the magic bytes
are implicit in the structured representation. -/
structure FrameHeader where
  version : Nat
  opcode : OpCode
  flags : Nat
  payload_len : Nat
  request_id : Nat
deriving DecidableEq, Repr

/-- A complete frame (`protocol/frame.rs`, `struct Frame`). -/
structure Frame where
  header : FrameHeader
  payload : Bytes
deriving DecidableEq, Repr

/-- `Frame::new`: header with version 1, flags 0, and
`payload_len = payload.len() as u32`. -/
def Frame.new (opcode : OpCode) (request_id : Nat) (payload : Bytes) : Frame :=
  ⟨⟨1, opcode, 0, payload.length % 2 ^ 32, request_id⟩, payload⟩

/-- Parsed commands (`protocol/command.rs`, `enum Command`).  The scalar type
`F` stands for `f32`: the wire layer instantiates it with 32-bit bit patterns
(`Nat`), the execution layer with exact rationals (`ℚ`).  The source variant
`Exists` is rendered `existsKey` because `exists` is reserved in Lean. -/
inductive Command (F : Type) where
  | ping
  | get (key : Bytes)
  | set (key : Bytes) (value : Bytes) (ttl : Option Nat)
  | del (key : Bytes)
  | existsKey (key : Bytes)
  | vadd (key : Bytes) (vector : List F)
  | vsearch (vector : List F) (k : Nat)
deriving DecidableEq, Repr

/-- `Command::write_length_prefixed_buf`: a `u32` length prefix followed by the
raw bytes. -/
def lengthPrefixed (data : Bytes) : Bytes := u32Bytes data.length ++ data

/-- `Command::encode`: opcode plus payload bytes.  Vector elements are 32-bit
words written big-endian by `put_f32`. -/
def Command.encode : Command Nat → OpCode × Bytes
  | .ping => (.Ping, [])
  | .get key => (.Get, lengthPrefixed key)
  | .set key value ttl =>
      (.Set, lengthPrefixed key ++ lengthPrefixed value ++ u64Bytes (ttl.getD 0))
  | .del key => (.Del, lengthPrefixed key)
  | .existsKey key => (.Exists, lengthPrefixed key)
  | .vadd key vector =>
      (.VAdd, lengthPrefixed key ++ u32Bytes vector.length ++ vector.flatMap u32Bytes)
  | .vsearch vector k =>
      (.VSearch, u32Bytes vector.length ++ vector.flatMap u32Bytes ++ u32Bytes k)

/-- The frame a client sends for a command: `Frame::new(opcode, id, payload)`
on the output of `Command::encode`. -/
def encodeCommandFrame (c : Command Nat) (request_id : Nat) : Frame :=
  Frame.new c.encode.1 request_id c.encode.2

/-- Outcome of a step of payload parsing.  `ok` carries the parsed value and
the unread remainder of the buffer; `ioError` is an `io::Result` error
(surfaced as a PROTOCOL error); `panicked` marks a call into the `bytes` crate
that panics (`get_u32` / `get_u64` / `get_f32` with fewer remaining bytes than
the read needs). -/
inductive Step (α : Type) where
  | ok (a : α) (rest : Bytes)
  | ioError
  | panicked
deriving DecidableEq, Repr

/-- `Buf::get_u32`: reads four big-endian bytes, panics when fewer remain. -/
def getU32 (b : Bytes) : Step Nat :=
  if 4 ≤ b.length then .ok (beNat (b.take 4)) (b.drop 4) else .panicked

/-- `Command::read_length_prefixed_buf`: both the 4-byte length prefix and the
prefixed payload are explicitly length-checked, returning an error on
shortfall. -/
def read_length_prefixed_buf (b : Bytes) : Step Bytes :=
  if b.length < 4 then .ioError
  else
    let len := beNat (b.take 4)
    let rest := b.drop 4
    if rest.length < len then .ioError
    else .ok (rest.take len) (rest.drop len)

/-- The vector-element loop of `Command::from_frame`: each element checks
`payload.remaining() < 4` and errors on shortfall, then `get_f32` reads the
four bytes of one `f32`. -/
def readF32s : Nat → Bytes → Step (List Nat)
  | 0, b => .ok [] b
  | n + 1, b =>
      if b.length < 4 then .ioError
      else
        match readF32s n (b.drop 4) with
        | .ok ws rest => .ok (beNat (b.take 4) :: ws) rest
        | .ioError => .ioError
        | .panicked => .panicked

/-- `Command::from_frame`.  The `Set` trailer and the `VSearch` `k` field are
read only when at least 8 (resp. 4) bytes remain; the `VAdd` / `VSearch`
element-count field is read by a bare `payload.get_u32()`, which panics when
fewer than four bytes remain.  Response opcodes yield an error. -/
def Command.from_frame (f : Frame) : Step (Command Nat) :=
  match f.header.opcode with
  | .Ping => .ok .ping f.payload
  | .Get =>
      match read_length_prefixed_buf f.payload with
      | .ok key rest => .ok (.get key) rest
      | .ioError => .ioError
      | .panicked => .panicked
  | .Set =>
      match read_length_prefixed_buf f.payload with
      | .ok key r1 =>
          match read_length_prefixed_buf r1 with
          | .ok value r2 =>
              if 8 ≤ r2.length then
                let t := beNat (r2.take 8)
                .ok (.set key value (if t > 0 then some t else none)) (r2.drop 8)
              else .ok (.set key value none) r2
          | .ioError => .ioError
          | .panicked => .panicked
      | .ioError => .ioError
      | .panicked => .panicked
  | .Del =>
      match read_length_prefixed_buf f.payload with
      | .ok key rest => .ok (.del key) rest
      | .ioError => .ioError
      | .panicked => .panicked
  | .Exists =>
      match read_length_prefixed_buf f.payload with
      | .ok key rest => .ok (.existsKey key) rest
      | .ioError => .ioError
      | .panicked => .panicked
  | .VAdd =>
      match read_length_prefixed_buf f.payload with
      | .ok key r1 =>
          match getU32 r1 with
          | .ok count r2 =>
              match readF32s count r2 with
              | .ok vector rest => .ok (.vadd key vector) rest
              | .ioError => .ioError
              | .panicked => .panicked
          | .ioError => .ioError
          | .panicked => .panicked
      | .ioError => .ioError
      | .panicked => .panicked
  | .VSearch =>
      match getU32 f.payload with
      | .ok count r1 =>
          match readF32s count r1 with
          | .ok vector r2 =>
              if 4 ≤ r2.length then
                .ok (.vsearch vector (beNat (r2.take 4))) (r2.drop 4)
              else .ok (.vsearch vector 10) r2
          | .ioError => .ioError
          | .panicked => .panicked
      | .ioError => .ioError
      | .panicked => .panicked
  | _ => .ioError

/-- The command a decoded frame parses to, forgetting the unread remainder
(`Command::from_frame` returns just the command). -/
def decodeCommand (f : Frame) : Option (Command Nat) :=
  match Command.from_frame f with
  | .ok c _ => some c
  | _ => none

/-- Response variants (`protocol/response.rs`, `enum Response`).  The type `E`
of error messages stands for Rust `String`: the wire layer instantiates it with
the string's UTF-8 bytes (for which `String::from_utf8_lossy` is the
identity), the execution layer with Lean `String`. -/
inductive Response (E : Type) where
  | ok
  | nil
  | value (data : Bytes)
  | integer (n : Int)
  | error (msg : E)
  | pong
  | array (items : List Bytes)
deriving DecidableEq, Repr

/-- `Response::to_frame`: every variant maps to its response frame; `Array` is
a `u32` count followed by `u32`-length-prefixed items. -/
def Response.to_frame (r : Response Bytes) (request_id : Nat) : Frame :=
  match r with
  | .ok => Frame.new .Ok request_id []
  | .nil => Frame.new .Nil request_id []
  | .value data => Frame.new .Value request_id data
  | .integer n => Frame.new .Integer request_id (i64Bytes n)
  | .error msg => Frame.new .Error request_id msg
  | .pong => Frame.new .Pong request_id []
  | .array items =>
      Frame.new .Array request_id
        (u32Bytes items.length ++ items.flatMap lengthPrefixed)

/-- The item loop of `Response::from_frame` for `Array`: each item checks the
4-byte length prefix and the prefixed bytes against the remaining buffer,
erroring on shortfall. -/
def readArrayItems : Nat → Bytes → Option (List Bytes × Bytes)
  | 0, b => some ([], b)
  | n + 1, b =>
      if b.length < 4 then none
      else
        let len := beNat (b.take 4)
        let rest := b.drop 4
        if rest.length < len then none
        else
          (readArrayItems n (rest.drop len)).map
            (fun p => (rest.take len :: p.1, p.2))

/-- `Response::from_frame`; `none` is the `io::Result` error case.  `Integer`
requires at least 8 payload bytes and reads the first 8; `Error` takes the
payload bytes as the message; command opcodes yield an error. -/
def Response.from_frame (f : Frame) : Option (Response Bytes) :=
  match f.header.opcode with
  | .Ok => some .ok
  | .Nil => some .nil
  | .Pong => some .pong
  | .Value => some (.value f.payload)
  | .Integer =>
      if 8 ≤ f.payload.length then some (.integer (i64OfNat (beNat (f.payload.take 8))))
      else none
  | .Error => some (.error f.payload)
  | .Array =>
      if f.payload.length < 4 then none
      else
        (readArrayItems (beNat (f.payload.take 4)) (f.payload.drop 4)).map
          (fun p => .array p.1)
  | _ => none

/-!  The sharded KV store (`storage/concurrent_store.rs`).  The `DashMap` is
modelled as an association list; `Instant::now()` becomes the explicit
parameter `now`, and `Instant` timestamps are `Nat`. -/

/-- A store entry (`struct Entry`): value bytes plus an optional absolute
expiration timestamp. -/
structure Entry where
  value : Bytes
  expires_at : Option Nat
deriving DecidableEq, Repr

/-- `Entry::new`: expiration is `now + ttl` when a TTL is given. -/
def Entry.new (now : Nat) (value : Bytes) (ttl : Option Nat) : Entry :=
  ⟨value, ttl.map (fun d => now + d)⟩

/-- `Entry::is_expired`: `Instant::now() > t`, i.e. strictly past the
expiration timestamp. -/
def Entry.is_expired (e : Entry) (now : Nat) : Bool :=
  match e.expires_at with
  | some t => decide (t < now)
  | none => false

/-- The concurrent KV store, as the association list of its bindings. -/
abbrev ConcurrentStore := List (Bytes × Entry)

/-- `DashMap::get`: the binding for a key. -/
def lookupEntry (s : ConcurrentStore) (key : Bytes) : Option Entry :=
  (s.find? (fun p => p.1 = key)).map (·.2)

/-- `ConcurrentStore::get`: `None` when the key is missing or the entry has
expired; otherwise the value bytes. -/
def ConcurrentStore.get (s : ConcurrentStore) (now : Nat) (key : Bytes) : Option Bytes :=
  (lookupEntry s key).bind
    (fun entry => if entry.is_expired now then none else some entry.value)

/-- `DashMap::insert`: replace the binding if present, append otherwise. -/
def insertEntry (s : ConcurrentStore) (key : Bytes) (e : Entry) : ConcurrentStore :=
  match s with
  | [] => [(key, e)]
  | (k, v) :: rest =>
      if k = key then (key, e) :: rest else (k, v) :: insertEntry rest key e

/-- `ConcurrentStore::set`: always succeeds, replacing any prior entry and
resetting the expiration. -/
def ConcurrentStore.set (s : ConcurrentStore) (now : Nat) (key : Bytes)
    (value : Bytes) (ttl : Option Nat) : ConcurrentStore :=
  insertEntry s key (Entry.new now value ttl)

/-- `ConcurrentStore::del`: `DashMap::remove(key).is_some()` — the entry is
removed unconditionally (no expiration check) and the result reports whether a
binding existed.  Returns the flag and the store after removal. -/
def ConcurrentStore.del (s : ConcurrentStore) (key : Bytes) : Bool × ConcurrentStore :=
  ((lookupEntry s key).isSome, s.eraseP (fun p => p.1 = key))

/-- `ConcurrentStore::exists` (source name `exists`, reserved in Lean): true
when a binding is present and not expired. -/
def ConcurrentStore.existsKey (s : ConcurrentStore) (now : Nat) (key : Bytes) : Bool :=
  ((lookupEntry s key).map (fun e => !e.is_expired now)).getD false

/-- `ConcurrentStore::cleanup_expired`: retain the unexpired entries and
return the removal count with the swept store. -/
def ConcurrentStore.cleanup_expired (s : ConcurrentStore) (now : Nat) :
    Nat × ConcurrentStore :=
  let kept := s.filter (fun p => !p.2.is_expired now)
  (s.length - kept.length, kept)

/-!  Similarity kernels (`vector/similarity.rs`) and the embedding index
(`vector/embedding_store.rs`).  `f32` arithmetic is idealized as exact `ℚ`
arithmetic (`f32::sqrt` as `Rat.sqrt`); in exact arithmetic the source's
4-lane unrolled dot-product loop sums the same terms as the sequential sum.
`dot_product` indexes the second vector at every index of the first, so it
panics (modelled as `none`) when the second is shorter; `debug_assert_eq!` is
compiled out in release builds and is not part of the model. -/

/-- `dot_product(a, b)`: sum of componentwise products over `a`'s indices;
out-of-bounds indexing of `b` is a panic. -/
def dot_product (a b : List ℚ) : Option ℚ :=
  if b.length < a.length then none
  else some (((a.zip b).map (fun p => p.1 * p.2)).sum)

/-- The squared magnitude `Σ xᵢ²` appearing in `cosine_similarity`. -/
def sumSquares (v : List ℚ) : ℚ := (v.map (fun x => x * x)).sum

/-- `cosine_similarity(a, b)`: `dot / (‖a‖·‖b‖)`, and 0 when the denominator
is not positive. -/
def cosine_similarity (a b : List ℚ) : Option ℚ :=
  (dot_product a b).map (fun dot =>
    let denom := Rat.sqrt (sumSquares a) * Rat.sqrt (sumSquares b)
    if 0 < denom then dot / denom else 0)

/-- An embedding entry (`struct EmbeddingEntry`). -/
structure EmbeddingEntry where
  embedding : List ℚ
  value : Option Bytes
  metadata : Option String
  created_at : Nat
  last_accessed : Nat
deriving DecidableEq, Repr

/-- `EmbeddingEntry::new`: both timestamps stamped with the current time. -/
def EmbeddingEntry.new (now : Nat) (embedding : List ℚ) : EmbeddingEntry :=
  ⟨embedding, none, none, now, now⟩

/-- `EmbeddingEntry::with_value`. -/
def EmbeddingEntry.with_value (e : EmbeddingEntry) (v : Bytes) : EmbeddingEntry :=
  { e with value := some v }

/-- `EmbeddingEntry::with_metadata`. -/
def EmbeddingEntry.with_metadata (e : EmbeddingEntry) (m : String) : EmbeddingEntry :=
  { e with metadata := some m }

/-- `EmbeddingEntry::touch`: refresh the last-accessed timestamp. -/
def EmbeddingEntry.touch (e : EmbeddingEntry) (now : Nat) : EmbeddingEntry :=
  { e with last_accessed := now }

/-- `EmbeddingEntry::dim`. -/
def EmbeddingEntry.dim (e : EmbeddingEntry) : Nat := e.embedding.length

/-- The embedding index (`struct EmbeddingStore`): key → entry bindings plus
the fixed dimension. -/
structure EmbeddingStore where
  embeddings : List (Bytes × EmbeddingEntry)
  dimension : Nat
deriving DecidableEq, Repr

/-- `EmbeddingStore::new`: empty index with the given dimension. -/
def EmbeddingStore.new (dimension : Nat) : EmbeddingStore := ⟨[], dimension⟩

/-- `DashMap::get` on the embedding map: the binding for a key. -/
def lookupEmbedding (s : List (Bytes × EmbeddingEntry)) (key : Bytes) :
    Option EmbeddingEntry :=
  (s.find? (fun p => p.1 = key)).map (·.2)

/-- `DashMap::insert` on the embedding map: replace or append. -/
def insertEmbedding (s : List (Bytes × EmbeddingEntry)) (key : Bytes)
    (e : EmbeddingEntry) : List (Bytes × EmbeddingEntry) :=
  match s with
  | [] => [(key, e)]
  | (k, v) :: rest =>
      if k = key then (key, e) :: rest else (k, v) :: insertEmbedding rest key e

/-- `EmbeddingStore::set`: a dimension mismatch fails with the mismatch error
before any mutation; otherwise the entry is touched and inserted or
replaced. -/
def EmbeddingStore.set (s : EmbeddingStore) (now : Nat) (key : Bytes)
    (entry : EmbeddingEntry) : Except String EmbeddingStore :=
  if entry.dim ≠ s.dimension then
    .error ("Dimension mismatch: expected " ++ toString s.dimension ++
      ", got " ++ toString entry.dim)
  else
    .ok { s with embeddings := insertEmbedding s.embeddings key (entry.touch now) }

/-- `EmbeddingStore::get`: the source clones the stored entry and calls
`touch` on the clone it returns; the entry held in the map is not written, so
the store itself is unchanged by `get`. -/
def EmbeddingStore.get (s : EmbeddingStore) (now : Nat) (key : Bytes) :
    Option EmbeddingEntry :=
  (lookupEmbedding s.embeddings key).map (fun e => e.touch now)

/-- `EmbeddingStore::del`: remove the binding, reporting whether it existed. -/
def EmbeddingStore.del (s : EmbeddingStore) (key : Bytes) :
    Bool × EmbeddingStore :=
  ((lookupEmbedding s.embeddings key).isSome,
   { s with embeddings := s.embeddings.eraseP (fun p => p.1 = key) })

/-- The descending-similarity comparator of `find_nearest`
(`b.1.partial_cmp(&a.1)` on the similarity component; the values compared have
passed the `sim >= threshold` filter, so the comparison is total). -/
def simGE (a b : Bytes × ℚ) : Prop := b.2 ≤ a.2

instance : DecidableRel simGE := fun a b => inferInstanceAs (Decidable (b.2 ≤ a.2))

instance : IsTotal (Bytes × ℚ) simGE := ⟨fun a b => le_total b.2 a.2⟩

instance : IsTrans (Bytes × ℚ) simGE := ⟨fun _ _ _ h h2 => le_trans h2 h⟩

/-- The scan loop of `find_nearest`: one `(key, similarity)` pair per stored
entry, aborting (`none`) when a similarity computation panics. -/
def computeSims (query : List ℚ) : List (Bytes × EmbeddingEntry) →
    Option (List (Bytes × ℚ))
  | [] => some []
  | p :: rest =>
      match cosine_similarity query p.2.embedding with
      | none => none
      | some sim => (computeSims query rest).map (fun l => (p.1, sim) :: l)

/-- `EmbeddingStore::find_nearest`: cosine similarity against every stored
vector, keep those `≥ threshold`, sort by descending similarity (a stable
sort, as Rust's `sort_by`), truncate to `k`.  `none` models the panic that a
similarity computation can raise on mismatched lengths.  The source fuses the
scan and the threshold test in one `filter_map`; computing all similarities
first and filtering after is the same function, since a panic anywhere aborts
the whole call. -/
def EmbeddingStore.find_nearest (s : EmbeddingStore) (query : List ℚ) (k : Nat)
    (threshold : ℚ) : Option (List (Bytes × ℚ)) :=
  (computeSims query s.embeddings).map (fun sims =>
    (List.insertionSort simGE (sims.filter (fun p => decide (threshold ≤ p.2)))).take k)

/-!  The semantic cache (`vector/semantic.rs`) and the single-threaded
connection handler's command execution (`server/handler.rs`). -/

/-- `struct SemanticCacheConfig`. -/
structure SemanticCacheConfig where
  similarity_threshold : ℚ
  max_results : Nat
  dimension : Nat
deriving DecidableEq, Repr

/-- `SemanticCacheConfig::default`: threshold 0.85 (idealized as the exact
rational 17/20), 5 results, dimension 1536. -/
def SemanticCacheConfig.default : SemanticCacheConfig := ⟨17 / 20, 5, 1536⟩

/-- `SemanticCacheConfig::with_threshold`. -/
def SemanticCacheConfig.with_threshold (c : SemanticCacheConfig) (t : ℚ) :
    SemanticCacheConfig := { c with similarity_threshold := t }

/-- `SemanticCacheConfig::with_dimension`. -/
def SemanticCacheConfig.with_dimension (c : SemanticCacheConfig) (d : Nat) :
    SemanticCacheConfig := { c with dimension := d }

/-- `SemanticCacheConfig::with_max_results`. -/
def SemanticCacheConfig.with_max_results (c : SemanticCacheConfig) (m : Nat) :
    SemanticCacheConfig := { c with max_results := m }

/-- `struct SemanticCache`: an embedding store plus the policy
configuration. -/
structure SemanticCache where
  store : EmbeddingStore
  config : SemanticCacheConfig
deriving DecidableEq, Repr

/-- `SemanticCache::new`: the store takes the configured dimension. -/
def SemanticCache.new (config : SemanticCacheConfig) : SemanticCache :=
  ⟨EmbeddingStore.new config.dimension, config⟩

/-- `struct SemanticResult`. -/
structure SemanticResult where
  key : Bytes
  value : Option Bytes
  similarity : ℚ
  metadata : Option String
deriving DecidableEq, Repr

/-- `SemanticCache::set`: build the entry from the embedding, value and
optional metadata, then store it. -/
def SemanticCache.set (c : SemanticCache) (now : Nat) (key : Bytes)
    (embedding : List ℚ) (value : Bytes) (metadata : Option String) :
    Except String SemanticCache :=
  let entry :=
    match metadata with
    | some m => ((EmbeddingEntry.new now embedding).with_value value).with_metadata m
    | none => (EmbeddingEntry.new now embedding).with_value value
  (c.store.set now key entry).map (fun st => { c with store := st })

/-- `SemanticCache::semantic_get`: `find_nearest` under the configured
`max_results` and threshold, each hit re-read through `store.get`.  No check
relates the query length to the configured dimension. -/
def SemanticCache.semantic_get (c : SemanticCache) (now : Nat)
    (query : List ℚ) : Option (List SemanticResult) :=
  (c.store.find_nearest query c.config.max_results c.config.similarity_threshold).map
    (fun nearest => nearest.filterMap
      (fun p => (c.store.get now p.1).map
        (fun e => ⟨p.1, e.value, p.2, e.metadata⟩)))

/-- `Handler::execute` (`server/handler.rs`): runs one parsed command against
the KV store and the semantic cache and produces the response together with
the successor states.  `none` models a panic escaping the vector scan.  For
`VSearch` the parsed `k` is bound by the pattern but the body consults only
`semantic_get` (that is, the configured `max_results`); the response lists the
keys of the results. -/
def Handler.execute (store : ConcurrentStore) (cache : SemanticCache)
    (now : Nat) : Command ℚ → Option (Response String × ConcurrentStore × SemanticCache)
  | .ping => some (.pong, store, cache)
  | .get key =>
      match store.get now key with
      | some v => some (.value v, store, cache)
      | none => some (.nil, store, cache)
  | .set key value ttl => some (.ok, store.set now key value ttl, cache)
  | .del key =>
      let r := store.del key
      some (.integer (if r.1 then 1 else 0), r.2, cache)
  | .existsKey key =>
      some (.integer (if store.existsKey now key then 1 else 0), store, cache)
  | .vadd key vector =>
      match cache.set now key vector key none with
      | .ok c2 => some (.ok, store, c2)
      | .error e => some (.error e, store, cache)
  | .vsearch vector _ =>
      (cache.semantic_get now vector).map
        (fun results => (.array (results.map (·.key)), store, cache))

/-- Whether a response is the `Error` variant. -/
def Response.isError {E : Type} : Response E → Bool
  | .error _ => true
  | _ => false

/-!  The command queue (`server/command_queue.rs`) and the dispatch step of
`ConcurrentHandler::run` (`server/mod.rs`).  `CommandQueue::send` delegates to
crossbeam's blocking `Sender::send`, whose immediate outcome is a function of
the channel state: it returns `Err(SendError)` exactly when every receiver
has been dropped, hands the item over when a slot is free, and otherwise
blocks the calling thread until a slot frees or the receivers drop. -/

/-- The observable state of one bounded MPMC command queue. -/
structure CommandQueue where
  buffered : Nat
  capacity : Nat
  receiversAlive : Bool
deriving DecidableEq, Repr

/-- The queue-full predicate (`Sender::is_full`). -/
def CommandQueue.is_full (q : CommandQueue) : Bool := decide (q.capacity ≤ q.buffered)

/-- Immediate outcome of a call to crossbeam's blocking `send`. -/
inductive SendOutcome where
  | accepted
  | blocked
  | disconnected
deriving DecidableEq, Repr

/-- `CommandQueue::send` (the blocking `Sender::send`): an error only on
disconnection; with live receivers it either hands the item over or blocks. -/
def CommandQueue.send (q : CommandQueue) : SendOutcome :=
  if q.receiversAlive = false then .disconnected
  else if q.buffered < q.capacity then .accepted
  else .blocked

/-- What the dispatch of one command in `ConcurrentHandler::run` does to the
connection's read loop. -/
inductive DispatchOutcome where
  | enqueued
  | repliedQueueFull
  | blockedRead
deriving DecidableEq, Repr

/-- The dispatch step of `ConcurrentHandler::run`: the handler calls
`target_queue.send(work_item)` and replies `ERROR("Queue full")` only when
that call returns an error; a blocking `send` leaves the read loop suspended
inside the call. -/
def ConcurrentHandler.dispatch (q : CommandQueue) : DispatchOutcome :=
  match q.send with
  | .accepted => .enqueued
  | .disconnected => .repliedQueueFull
  | .blocked => .blockedRead

/-!  Helper lemmas about association-list lookup and removal. -/

/-- Lookup distributes over cons. -/
theorem lookupEntry_cons (k : Bytes) (e : Entry) (rest : ConcurrentStore)
    (key : Bytes) :
    lookupEntry ((k, e) :: rest) key =
      if k = key then some e else lookupEntry rest key := by
  by_cases h : k = key <;> simp [lookupEntry, List.find?_cons, h]

/-- A key that appears in no binding looks up to `none`. -/
theorem lookupEntry_eq_none_of_not_mem (s : ConcurrentStore) (key : Bytes)
    (h : key ∉ s.map Prod.fst) : lookupEntry s key = none := by
  induction s with
  | nil => rfl
  | cons a rest ih =>
      rw [show a = (a.1, a.2) from rfl, lookupEntry_cons]
      simp only [List.map_cons, List.mem_cons, not_or] at h
      rw [if_neg (fun hh => h.1 hh.symm), ih h.2]

/-- With no duplicate keys, erasing a key's binding makes it look up to
`none`. -/
theorem lookupEntry_eraseP (s : ConcurrentStore) (key : Bytes)
    (hnd : (s.map Prod.fst).Nodup) :
    lookupEntry (s.eraseP (fun p => p.1 = key)) key = none := by
  induction s with
  | nil => rfl
  | cons a rest ih =>
      simp only [List.map_cons, List.nodup_cons] at hnd
      by_cases h : a.1 = key
      · rw [List.eraseP_cons_of_pos (by simpa using h)]
        exact lookupEntry_eq_none_of_not_mem rest key (h ▸ hnd.1)
      · rw [List.eraseP_cons_of_neg (by simpa using h),
          show a = (a.1, a.2) from rfl, lookupEntry_cons, if_neg h]
        exact ih hnd.2

/-- C1: for every KV store state and every key whose entry carries an
expiration timestamp strictly in the past, `get` returns absent and `exists`
returns false, with no sweep having run. -/
theorem expired_entry_reads_absent (s : ConcurrentStore) (now : Nat)
    (key : Bytes) (e : Entry) (t : Nat) (hl : lookupEntry s key = some e)
    (he : e.expires_at = some t) (ht : t < now) :
    ConcurrentStore.get s now key = none ∧
    ConcurrentStore.existsKey s now key = false := by
  constructor
  · simp [ConcurrentStore.get, hl, Entry.is_expired, he, ht]
  · simp [ConcurrentStore.existsKey, hl, Entry.is_expired, he, ht]

/-- Witness for C1 at a one-entry store whose entry expired at time 3,
observed at time 5. -/
theorem expired_entry_reads_absent_witness :
    ConcurrentStore.get [([1], ⟨[2], some 3⟩)] 5 [1] = none ∧
    ConcurrentStore.existsKey [([1], ⟨[2], some 3⟩)] 5 [1] = false :=
  expired_entry_reads_absent [([1], ⟨[2], some 3⟩)] 5 [1] ⟨[2], some 3⟩ 3
    (by decide) rfl (by decide)

/-- C10: on a store (with distinct keys, as `DashMap` guarantees) holding an
expired but unreaped entry, `del` returns true and removes the binding, even
though `get` and `exists` on the same state already report the key absent. -/
theorem del_true_on_expired_entry (s : ConcurrentStore) (now : Nat)
    (key : Bytes) (e : Entry) (t : Nat) (hnd : (s.map Prod.fst).Nodup)
    (hl : lookupEntry s key = some e) (he : e.expires_at = some t)
    (ht : t < now) :
    (ConcurrentStore.del s key).1 = true ∧
    lookupEntry (ConcurrentStore.del s key).2 key = none ∧
    ConcurrentStore.get s now key = none ∧
    ConcurrentStore.existsKey s now key = false := by
  refine ⟨?_, ?_, ?_, ?_⟩
  · simp [ConcurrentStore.del, hl]
  · exact lookupEntry_eraseP s key hnd
  · simp [ConcurrentStore.get, hl, Entry.is_expired, he, ht]
  · simp [ConcurrentStore.existsKey, hl, Entry.is_expired, he, ht]

/-- Witness for C10 at the same one-entry store. -/
theorem del_true_on_expired_entry_witness :
    (ConcurrentStore.del [([1], ⟨[2], some 3⟩)] [1]).1 = true ∧
    lookupEntry (ConcurrentStore.del [([1], ⟨[2], some 3⟩)] [1]).2 [1] = none ∧
    ConcurrentStore.get [([1], ⟨[2], some 3⟩)] 5 [1] = none ∧
    ConcurrentStore.existsKey [([1], ⟨[2], some 3⟩)] 5 [1] = false :=
  del_true_on_expired_entry [([1], ⟨[2], some 3⟩)] 5 [1] ⟨[2], some 3⟩ 3
    (by decide) (by decide) rfl (by decide)

/-- C4 (divergence witness): with the queue at capacity and the worker-side
receivers alive, the dispatch of `ConcurrentHandler::run` blocks inside the
crossbeam `send` call — it does not produce the immediate queue-full error
reply the specification requires (that reply is produced only when every
receiver has been dropped). -/
theorem dispatch_blocks_on_full_queue :
    CommandQueue.is_full ⟨1, 1, true⟩ = true ∧
    ConcurrentHandler.dispatch ⟨1, 1, true⟩ = DispatchOutcome.blockedRead ∧
    ConcurrentHandler.dispatch ⟨1, 1, true⟩ ≠ DispatchOutcome.repliedQueueFull := by
  decide

/-- C8 (divergence witness): a VSEARCH frame whose payload is too short for
the 4-byte element-count prefix, and a VADD frame whose payload ends right
after the key, both drive `Command::from_frame` into the unguarded
`payload.get_u32()`, which panics instead of returning a PROTOCOL error. -/
theorem from_frame_panics_on_truncated_count :
    Command.from_frame (Frame.new .VSearch 7 []) = Step.panicked ∧
    Command.from_frame (Frame.new .VAdd 7 [0, 0, 0, 0]) = Step.panicked := by
  decide

/-- C2 (counterexample): the command `SET(key="", value="", ttl=Some 0)` is
constructible through the model, but its encoded frame decodes to
`ttl = None` — 0 is the wire sentinel for "no expiry" — so
`decode(encode(C)) ≠ C`. -/
theorem set_ttl_zero_not_round_trip :
    decodeCommand (encodeCommandFrame (Command.set [] [] (some 0)) 1) =
      some (Command.set [] [] none) ∧
    decodeCommand (encodeCommandFrame (Command.set [] [] (some 0)) 1) ≠
      some (Command.set [] [] (some 0)) := by
  decide

/-- Insertion into the embedding map only adds the new binding. -/
theorem mem_insertEmbedding (s : List (Bytes × EmbeddingEntry)) (key : Bytes)
    (e : EmbeddingEntry) (p : Bytes × EmbeddingEntry)
    (h : p ∈ insertEmbedding s key e) : p ∈ s ∨ p = (key, e) := by
  induction s with
  | nil => simpa [insertEmbedding] using h
  | cons a rest ih =>
      obtain ⟨k, v⟩ := a
      rw [insertEmbedding] at h
      by_cases hk : k = key
      · rw [if_pos hk] at h
        rcases List.mem_cons.mp h with h1 | h1
        · exact .inr h1
        · exact .inl (List.mem_cons_of_mem _ h1)
      · rw [if_neg hk] at h
        rcases List.mem_cons.mp h with h1 | h1
        · exact .inl (h1 ▸ List.mem_cons_self _ _)
        · rcases ih h1 with h2 | h2
          · exact .inl (List.mem_cons_of_mem _ h2)
          · exact .inr h2

/-- The dimension invariant of an embedding index: every stored vector has
exactly the index's dimension. -/
def dimInvariant (s : EmbeddingStore) : Prop :=
  ∀ p ∈ s.embeddings, p.2.embedding.length = s.dimension

/-- C7: a mismatched insert fails with the dimension error before any
mutation, a fresh index satisfies the dimension invariant, and both
successful `set` and `del` preserve it — so every reachable index state
satisfies it. -/
theorem embedding_dimension_invariant :
    (∀ d, dimInvariant (EmbeddingStore.new d)) ∧
    (∀ (s : EmbeddingStore) (now : Nat) (key : Bytes) (entry : EmbeddingEntry),
      entry.dim ≠ s.dimension →
      s.set now key entry = .error ("Dimension mismatch: expected " ++
        toString s.dimension ++ ", got " ++ toString entry.dim)) ∧
    (∀ (s : EmbeddingStore) (now : Nat) (key : Bytes) (entry : EmbeddingEntry)
      (s2 : EmbeddingStore),
      dimInvariant s → s.set now key entry = .ok s2 → dimInvariant s2) ∧
    (∀ (s : EmbeddingStore) (key : Bytes),
      dimInvariant s → dimInvariant (s.del key).2) := by
  refine ⟨?_, ?_, ?_, ?_⟩
  · intro d p hp
    simp [EmbeddingStore.new] at hp
  · intro s now key entry h
    simp [EmbeddingStore.set, h]
  · intro s now key entry s2 hinv hset
    rw [EmbeddingStore.set] at hset
    split at hset
    · exact absurd hset (by simp)
    · rename_i hdim
      obtain rfl := Except.ok.inj hset
      intro p hp
      rcases mem_insertEmbedding _ _ _ _ hp with h1 | h1
      · exact hinv p h1
      · subst h1
        simpa [EmbeddingEntry.touch, EmbeddingEntry.dim] using not_not.mp hdim
  · intro s key hinv p hp
    exact hinv p ((List.eraseP_sublist _).subset hp)

/-- Witness for C7: a dimension-2 index rejects a 1-component vector with the
dimension error, and the invariant survives a successful insert into a fresh
dimension-1 index. -/
theorem embedding_dimension_invariant_witness :
    ((EmbeddingStore.new 2).set 0 [1] (EmbeddingEntry.new 0 [5]) =
      .error ("Dimension mismatch: expected " ++
        toString (EmbeddingStore.new 2).dimension ++ ", got " ++
        toString (EmbeddingEntry.new 0 [5]).dim)) ∧
    dimInvariant ⟨[([1], (EmbeddingEntry.new 0 [5]).touch 0)], 1⟩ :=
  ⟨embedding_dimension_invariant.2.1 (EmbeddingStore.new 2) 0 [1]
      (EmbeddingEntry.new 0 [5]) (by decide),
   embedding_dimension_invariant.2.2.1 (EmbeddingStore.new 1) 0 [1]
      (EmbeddingEntry.new 0 [5]) _
      (by intro p hp; simp [EmbeddingStore.new] at hp) rfl⟩

/-- A one-entry embedding index used to exercise `get`. -/
def c9entry : EmbeddingEntry := ⟨[1], some [9], none, 0, 0⟩

/-- The index holding `c9entry` under key `[5]`. -/
def c9store : EmbeddingStore := ⟨[([5], c9entry)], 1⟩

/-- C9 (counterexample): `get` at time 7 returns the entry with last-accessed
7, but the entry stored in the index still carries last-accessed 0 — the
source touches only the clone it returns, so the stored timestamp is not
refreshed. -/
theorem get_leaves_stored_timestamp_stale :
    EmbeddingStore.get c9store 7 [5] = some ⟨[1], some [9], none, 0, 7⟩ ∧
    lookupEmbedding c9store.embeddings [5] = some ⟨[1], some [9], none, 0, 0⟩ ∧
    (0 : Nat) ≠ 7 :=
  ⟨rfl, rfl, by decide⟩

/-- C9 (amended): `get` returns a copy of the stored entry whose
last-accessed timestamp is the access time; the index itself — including the
stored entry's timestamp — is unchanged. -/
theorem get_touches_returned_copy (s : EmbeddingStore) (now : Nat)
    (key : Bytes) (e : EmbeddingEntry)
    (h : lookupEmbedding s.embeddings key = some e) :
    EmbeddingStore.get s now key = some { e with last_accessed := now } ∧
    lookupEmbedding s.embeddings key = some e :=
  ⟨by simp [EmbeddingStore.get, h, EmbeddingEntry.touch], h⟩

/-- Witness for C9's amended statement on the one-entry index. -/
theorem get_touches_returned_copy_witness :
    EmbeddingStore.get c9store 7 [5] = some { c9entry with last_accessed := 7 } ∧
    lookupEmbedding c9store.embeddings [5] = some c9entry :=
  get_touches_returned_copy c9store 7 [5] c9entry rfl

/-- `Rat.sqrt` of one is one (magnitude of a unit vector). -/
theorem ratSqrt_one : Rat.sqrt 1 = 1 := by
  have h := Rat.sqrt_eq (1 : ℚ)
  rwa [mul_one, abs_one] at h

/-- C5: whenever `find_nearest` returns (does not panic), it returns at most
`k` pairs, every returned similarity is at least the threshold, and the pairs
are sorted in descending order of similarity. -/
theorem find_nearest_spec (s : EmbeddingStore) (q : List ℚ) (k : Nat) (t : ℚ)
    (res : List (Bytes × ℚ)) (h : s.find_nearest q k t = some res) :
    res.length ≤ k ∧ (∀ p ∈ res, t ≤ p.2) ∧ List.Sorted simGE res := by
  rw [EmbeddingStore.find_nearest] at h
  rcases ho : computeSims q s.embeddings with _ | sims
  · rw [ho] at h
    simp at h
  · rw [ho] at h
    obtain rfl := Option.some.inj h
    refine ⟨?_, ?_, ?_⟩
    · exact List.length_take_le _ _
    · intro p hp
      have h1 := (List.take_sublist _ _).subset hp
      have h2 := (List.perm_insertionSort simGE _).subset h1
      exact of_decide_eq_true (List.mem_filter.mp h2).2
    · exact (List.sorted_insertionSort simGE _).sublist (List.take_sublist _ _)

/-- Witness for C5 on the one-entry index: the query equal to the stored unit
vector yields exactly the one pair with similarity 1. -/
theorem find_nearest_spec_witness :
    ([([5], (1 : ℚ))] : List (Bytes × ℚ)).length ≤ 1 ∧
    (∀ p ∈ ([([5], (1 : ℚ))] : List (Bytes × ℚ)), (0 : ℚ) ≤ p.2) ∧
    List.Sorted simGE [([5], (1 : ℚ))] :=
  find_nearest_spec c9store [1] 1 0 [([5], 1)] (by
    norm_num [c9store, c9entry, EmbeddingStore.find_nearest, computeSims,
      cosine_similarity, dot_product, sumSquares, ratSqrt_one,
      List.insertionSort, List.orderedInsert])

/-- A dimension-3 semantic-cache configuration with the default threshold
0.85 and default max-results 5 (the shape the source's own tests build with
`with_dimension`). -/
def c3config : SemanticCacheConfig := ⟨17 / 20, 5, 3⟩

/-- The entry VADD("a" = byte 97, [1,0,0]) stores (the handler uses the key
as the value). -/
def c3entry : EmbeddingEntry := ⟨[1, 0, 0], some [97], none, 0, 0⟩

/-- The cache reached from `SemanticCache::new(c3config)` by that VADD. -/
def c3cache : SemanticCache := ⟨⟨[([97], c3entry)], 3⟩, c3config⟩

/-- C3 (divergence witness): the cache is reachable by one VADD; a VSEARCH
whose query has length 2 ≠ dimension 3 is executed without any dimension
check and yields a normal ARRAY response (here naming key 97, from a cosine
over the truncated overlap), not an error — and the index is unchanged. -/
theorem vsearch_dimension_mismatch_not_rejected :
    ([1, 0] : List ℚ).length ≠ c3cache.config.dimension ∧
    (SemanticCache.new c3config).set 0 [97] [1, 0, 0] [97] none = .ok c3cache ∧
    Handler.execute [] c3cache 0 (.vsearch [1, 0] 5) =
      some (.array [[97]], [], c3cache) ∧
    Response.isError (E := String) (.array [[97]]) = false := by
  refine ⟨by decide, rfl, ?_, rfl⟩
  norm_num [c3cache, c3entry, c3config, Handler.execute, SemanticCache.semantic_get,
    EmbeddingStore.find_nearest, computeSims, cosine_similarity, dot_product,
    sumSquares, ratSqrt_one, List.insertionSort, List.orderedInsert,
    EmbeddingStore.get, lookupEmbedding, EmbeddingEntry.touch,
    List.filterMap_cons, List.filterMap_nil]

/-- The entry VADD("b" = byte 98, [1,0,0]) stores. -/
def c6entryB : EmbeddingEntry := ⟨[1, 0, 0], some [98], none, 0, 0⟩

/-- The cache reached from `c3cache` by a second VADD under key 98. -/
def c6cache : SemanticCache := ⟨⟨[([97], c3entry), ([98], c6entryB)], 3⟩, c3config⟩

/-- C6 (divergence witness): the two-entry cache is reachable by a second
VADD; a VSEARCH with `k = 1` whose query matches both stored vectors at
similarity 1 yields an ARRAY of 2 items — `Handler::execute` drops the parsed
`k` and uses the configured `max_results` (5), so the response exceeds `k`. -/
theorem vsearch_returns_more_than_k :
    c3cache.set 0 [98] [1, 0, 0] [98] none = .ok c6cache ∧
    Handler.execute [] c6cache 0 (.vsearch [1, 0, 0] 1) =
      some (.array [[97], [98]], [], c6cache) ∧
    ¬ ([[97], [98]] : List Bytes).length ≤ 1 := by
  refine ⟨rfl, ?_, by decide⟩
  norm_num [c6cache, c3entry, c6entryB, c3config, Handler.execute,
    SemanticCache.semantic_get, EmbeddingStore.find_nearest, computeSims,
    cosine_similarity, dot_product, sumSquares, ratSqrt_one, simGE,
    List.insertionSort, List.orderedInsert, EmbeddingStore.get,
    lookupEmbedding, EmbeddingEntry.touch, List.filterMap_cons,
    List.filterMap_nil, List.find?_cons, List.find?_nil]

/-!  Round-trip lemmas for the wire encoders and the strict-length readers. -/

/-- The `put_u32` bytes decode to the truncated value. -/
theorem beNat_u32Bytes (n : Nat) : beNat (u32Bytes n) = n % 2 ^ 32 := by
  simp only [beNat, u32Bytes, List.foldl_cons, List.foldl_nil]
  omega

/-- The `put_u64` bytes decode to the truncated value. -/
theorem beNat_u64Bytes (n : Nat) : beNat (u64Bytes n) = n % 2 ^ 64 := by
  simp only [beNat, u64Bytes, List.foldl_cons, List.foldl_nil]
  omega

/-- `put_u32` writes four bytes. -/
theorem u32Bytes_length (n : Nat) : (u32Bytes n).length = 4 := rfl

/-- `put_u64` writes eight bytes. -/
theorem u64Bytes_length (n : Nat) : (u64Bytes n).length = 8 := rfl

/-- `get_u32` on a buffer starting with `put_u32` bytes. -/
theorem getU32_encoded (n : Nat) (rest : Bytes) :
    getU32 (u32Bytes n ++ rest) = .ok (n % 2 ^ 32) rest := by
  rw [getU32, if_pos (by simp [u32Bytes]), List.take_left' (u32Bytes_length n),
    List.drop_left' (u32Bytes_length n), beNat_u32Bytes]

/-- The strict-length reader undoes `write_length_prefixed_buf`. -/
theorem read_length_prefixed_encoded (data rest : Bytes)
    (h : data.length < 2 ^ 32) :
    read_length_prefixed_buf (lengthPrefixed data ++ rest) = .ok data rest := by
  have e1 : lengthPrefixed data ++ rest = u32Bytes data.length ++ (data ++ rest) := by
    simp [lengthPrefixed]
  rw [e1]
  simp only [read_length_prefixed_buf]
  rw [List.take_left' (u32Bytes_length _), List.drop_left' (u32Bytes_length _),
    beNat_u32Bytes, Nat.mod_eq_of_lt h]
  rw [if_neg (by simp [u32Bytes]), if_neg (by simp), List.take_left, List.drop_left]

/-- The same and nothing left over, without a following buffer. -/
theorem read_length_prefixed_exact (data : Bytes) (h : data.length < 2 ^ 32) :
    read_length_prefixed_buf (lengthPrefixed data) = .ok data [] := by
  have := read_length_prefixed_encoded data [] h
  rwa [List.append_nil] at this

/-- The element loop undoes the `put_f32` sequence. -/
theorem readF32s_encoded (ws : List Nat) (rest : Bytes)
    (h : ∀ w ∈ ws, w < 2 ^ 32) :
    readF32s ws.length (ws.flatMap u32Bytes ++ rest) = .ok ws rest := by
  induction ws with
  | nil => simp [readF32s]
  | cons w ws ih =>
      have hw : w < 2 ^ 32 := h w (List.mem_cons_self _ _)
      have e1 : (w :: ws).flatMap u32Bytes ++ rest =
          u32Bytes w ++ (ws.flatMap u32Bytes ++ rest) := by
        simp
      rw [List.length_cons, e1]
      simp only [readF32s]
      rw [if_neg (by simp [u32Bytes]), List.take_left' (u32Bytes_length _),
        List.drop_left' (u32Bytes_length _), beNat_u32Bytes, Nat.mod_eq_of_lt hw,
        ih (fun x hx => h x (List.mem_cons_of_mem _ hx))]

/-- The array-item loop undoes the `Array` item encoding. -/
theorem readArrayItems_encoded (items : List Bytes) (rest : Bytes)
    (h : ∀ it ∈ items, it.length < 2 ^ 32) :
    readArrayItems items.length (items.flatMap lengthPrefixed ++ rest) =
      some (items, rest) := by
  induction items with
  | nil => simp [readArrayItems]
  | cons it items ih =>
      have hit : it.length < 2 ^ 32 := h it (List.mem_cons_self _ _)
      have e1 : (it :: items).flatMap lengthPrefixed ++ rest =
          u32Bytes it.length ++ (it ++ (items.flatMap lengthPrefixed ++ rest)) := by
        simp [lengthPrefixed]
      rw [List.length_cons, e1]
      simp only [readArrayItems]
      rw [List.take_left' (u32Bytes_length _), List.drop_left' (u32Bytes_length _),
        beNat_u32Bytes, Nat.mod_eq_of_lt hit]
      rw [if_neg (by simp [u32Bytes]), if_neg (by simp), List.take_left, List.drop_left,
        ih (fun x hx => h x (List.mem_cons_of_mem _ hx))]
      rfl

/-- The commands whose numeric fields are representable on the wire: length
fields fit in `u32`, `k` fits in `u32`, a present TTL is nonzero (0 is the
no-expiry sentinel) and fits in `u64`. -/
def wfCommand : Command Nat → Prop
  | .ping => True
  | .get key => key.length < 2 ^ 32
  | .set key value ttl =>
      key.length < 2 ^ 32 ∧ value.length < 2 ^ 32 ∧
      (match ttl with
       | some t => 0 < t ∧ t < 2 ^ 64
       | none => True)
  | .del key => key.length < 2 ^ 32
  | .existsKey key => key.length < 2 ^ 32
  | .vadd key v => key.length < 2 ^ 32 ∧ v.length < 2 ^ 32 ∧ ∀ w ∈ v, w < 2 ^ 32
  | .vsearch v k => v.length < 2 ^ 32 ∧ (∀ w ∈ v, w < 2 ^ 32) ∧ k < 2 ^ 32

/-- The responses whose numeric fields are representable on the wire: the
integer fits in `i64`, array counts and item lengths fit in `u32`. -/
def wfResponse : Response Bytes → Prop
  | .integer n => -2 ^ 63 ≤ n ∧ n < 2 ^ 63
  | .array items => items.length < 2 ^ 32 ∧ ∀ it ∈ items, it.length < 2 ^ 32
  | _ => True

/-- C2 (amended): for every command and response whose numeric fields are
wire-representable — and, for `SET`, whose TTL is not the `Some(0)` that the
wire collapses onto the no-expiry sentinel — decoding the encoded frame
parses back to the original value. -/
theorem frame_round_trip :
    (∀ (c : Command Nat) (rid : Nat), wfCommand c →
      decodeCommand (encodeCommandFrame c rid) = some c) ∧
    (∀ (r : Response Bytes) (rid : Nat), wfResponse r →
      Response.from_frame (r.to_frame rid) = some r) := by
  constructor
  · intro c rid hwf
    cases c with
    | ping => rfl
    | get key =>
        have hk := read_length_prefixed_exact key hwf
        simp [decodeCommand, encodeCommandFrame, Command.encode, Command.from_frame,
          Frame.new, hk]
    | del key =>
        have hk := read_length_prefixed_exact key hwf
        simp [decodeCommand, encodeCommandFrame, Command.encode, Command.from_frame,
          Frame.new, hk]
    | existsKey key =>
        have hk := read_length_prefixed_exact key hwf
        simp [decodeCommand, encodeCommandFrame, Command.encode, Command.from_frame,
          Frame.new, hk]
    | set key value ttl =>
        obtain ⟨h1, h2, h3⟩ := hwf
        have e1 : lengthPrefixed key ++ lengthPrefixed value ++ u64Bytes (ttl.getD 0) =
            lengthPrefixed key ++ (lengthPrefixed value ++ u64Bytes (ttl.getD 0)) := by
          simp
        have hk := read_length_prefixed_encoded key
          (lengthPrefixed value ++ u64Bytes (ttl.getD 0)) h1
        have hv := read_length_prefixed_encoded value (u64Bytes (ttl.getD 0)) h2
        simp only [decodeCommand, encodeCommandFrame, Command.encode,
          Command.from_frame, Frame.new, e1, hk, hv]
        rw [if_pos (by simp [u64Bytes]), List.take_of_length_le (by simp [u64Bytes]),
          beNat_u64Bytes]
        cases ttl with
        | none => simp
        | some t =>
            obtain ⟨ht0, ht64⟩ := h3
            simp [Nat.mod_eq_of_lt ht64, ht0]
            omega
    | vadd key v =>
        obtain ⟨h1, h2, h3⟩ := hwf
        have e1 : lengthPrefixed key ++ u32Bytes v.length ++ v.flatMap u32Bytes =
            lengthPrefixed key ++ (u32Bytes v.length ++ v.flatMap u32Bytes) := by
          simp
        have hk := read_length_prefixed_encoded key
          (u32Bytes v.length ++ v.flatMap u32Bytes) h1
        have hc : getU32 (u32Bytes v.length ++ v.flatMap u32Bytes) =
            .ok v.length (v.flatMap u32Bytes) := by
          rw [getU32_encoded, Nat.mod_eq_of_lt h2]
        have hv : readF32s v.length (v.flatMap u32Bytes) = .ok v [] := by
          have hv0 := readF32s_encoded v [] h3
          rwa [List.append_nil] at hv0
        simp [decodeCommand, encodeCommandFrame, Command.encode, Command.from_frame,
          Frame.new, e1, hk, hc, hv]
    | vsearch v k =>
        obtain ⟨h1, h2, h3⟩ := hwf
        have e1 : u32Bytes v.length ++ v.flatMap u32Bytes ++ u32Bytes k =
            u32Bytes v.length ++ (v.flatMap u32Bytes ++ u32Bytes k) := by
          simp
        have hc : getU32 (u32Bytes v.length ++ (v.flatMap u32Bytes ++ u32Bytes k)) =
            .ok v.length (v.flatMap u32Bytes ++ u32Bytes k) := by
          rw [getU32_encoded, Nat.mod_eq_of_lt h1]
        have hv := readF32s_encoded v (u32Bytes k) h2
        simp only [decodeCommand, encodeCommandFrame, Command.encode,
          Command.from_frame, Frame.new, e1, hc, hv]
        rw [if_pos (by simp [u32Bytes]), List.take_of_length_le (by simp [u32Bytes]),
          beNat_u32Bytes, Nat.mod_eq_of_lt h3]
  · intro r rid hwf
    cases r with
    | ok => rfl
    | nil => rfl
    | pong => rfl
    | value data => rfl
    | error msg => rfl
    | integer n =>
        obtain ⟨h1, h2⟩ := hwf
        have hm : (n % 2 ^ 64).toNat < 2 ^ 64 := by omega
        have hval : i64OfNat (n % 2 ^ 64).toNat = n := by
          rw [i64OfNat]
          split <;> omega
        simp only [Response.to_frame, Frame.new, Response.from_frame, i64Bytes]
        rw [if_pos (by simp [u64Bytes]), List.take_of_length_le (by simp [u64Bytes]),
          beNat_u64Bytes, Nat.mod_eq_of_lt hm, hval]
    | array items =>
        obtain ⟨h1, h2⟩ := hwf
        have hi : readArrayItems items.length (items.flatMap lengthPrefixed) =
            some (items, []) := by
          have hi0 := readArrayItems_encoded items [] h2
          rwa [List.append_nil] at hi0
        simp only [Response.to_frame, Frame.new, Response.from_frame]
        rw [if_neg (by simp [u32Bytes]), List.take_left' (u32Bytes_length _),
          List.drop_left' (u32Bytes_length _), beNat_u32Bytes, Nat.mod_eq_of_lt h1, hi]
        rfl

/-- Witness for C2's amended statement: a concrete `SET` with a positive TTL
and a concrete two-item `ARRAY` both survive the round trip. -/
theorem frame_round_trip_witness :
    decodeCommand (encodeCommandFrame (Command.set [1] [2] (some 3)) 9) =
      some (Command.set [1] [2] (some 3)) ∧
    Response.from_frame ((Response.array [[1], [2]]).to_frame 9) =
      some (Response.array [[1], [2]]) :=
  ⟨frame_round_trip.1 (Command.set [1] [2] (some 3)) 9
      (by norm_num [wfCommand]),
   frame_round_trip.2 (Response.array [[1], [2]]) 9
      (by norm_num [wfResponse])⟩

end Celrix
